import Mathlib

/-!
Verification of the 1-D explicit FTCS diffusion integrator from
`src/notebooks/diffusion-model.ipynb`.

The numerical core of the notebook is:

  dt = 0.5 * (dx**2/D)
  for t in range(0, nt):
      C += D * dt / dx**2 * (np.roll(C, -1) - 2*C + np.roll(C, 1))
      C[0] = C_left
      C[-1] = C_right

Fields are embedded as `List ℚ` (exact rational arithmetic stands in for
floating point), and the numpy vectorized expressions are embedded
elementwise with `List.zipWith` / `List.map`, which matches numpy
semantics: the whole right-hand side of `C += ...` is evaluated from the
pre-update array (the `np.roll` calls copy) before the elementwise add.
-/

namespace Diffusion

/-- `np.roll`: element `i` of the result is element `(i - shift) mod n` of
the input array (numpy rolls elements forward by `shift`, wrapping). -/
def npRoll (C : List ℚ) (shift : ℤ) : List ℚ :=
  (List.range C.length).map fun (i : ℕ) =>
    C.getD (((i : ℤ) - shift) % (C.length : ℤ)).toNat 0

/-- The vectorized statement `C + D*dt/dx**2 * (np.roll(C,-1) - 2*C + np.roll(C,1))`,
elementwise over the whole array (wraparound included), exactly as the
numpy expression computes it from the pre-update array `C`. -/
def stencilUpdate (D dt dx : ℚ) (C : List ℚ) : List ℚ :=
  List.zipWith (· + ·) C
    ((List.zipWith (· + ·)
        (List.zipWith (· - ·) (npRoll C (-1)) (C.map fun x => 2 * x))
        (npRoll C 1)).map fun x => D * dt / dx ^ 2 * x)

/-- One iteration of the notebook's loop body: the vectorized stencil
update followed by the boundary overwrites `C[0] = C_left` and
`C[-1] = C_right` (numpy index `-1` is index `length - 1`). -/
def diffusionStep (D dt dx left right : ℚ) (C : List ℚ) : List ℚ :=
  ((stencilUpdate D dt dx C).set 0 left).set (C.length - 1) right

/-- The notebook's driving loop `for t in range(0, nt)`: apply the loop
body `nt` times, each iteration consuming the previous one's output. -/
def diffusionLoop (D dt dx left right : ℚ) (nt : ℕ) (C : List ℚ) : List ℚ :=
  match nt with
  | 0 => C
  | n + 1 => diffusionLoop D dt dx left right n (diffusionStep D dt dx left right C)

/-- The notebook's time-step selection `dt = 0.5 * (dx**2/D)`. -/
def timeStep (dx D : ℚ) : ℚ := 0.5 * (dx ^ 2 / D)

/-- The whole run as the notebook executes it: compute `dt`, then run the
loop.  The run aborts with a Python exception (modelled as `none`) exactly
when `D = 0` (`ZeroDivisionError` in the division `dx**2/D` while computing
`dt`), or when at least one iteration executes and either `dx = 0`
(`ZeroDivisionError` in the division `D*dt/dx**2` of the loop body) or the
field is empty (`IndexError` at the boundary assignment `C[0] = C_left`;
the preceding `+=` succeeds on an empty array, `C[0]` does not).  No other
input is rejected: the notebook performs no parameter validation. -/
def diffusionRun (D dx left right : ℚ) (nt : ℕ) (C : List ℚ) : Option (List ℚ) :=
  if D = 0 then none
  else
    if (dx = 0 ∨ C = []) ∧ nt ≠ 0 then none
    else some (diffusionLoop D (timeStep dx D) dx left right nt C)

/-- Modelled from the spec: the interior-only stencil of §4.2 / §9, which
applies the three-point formula only at indices `1 ≤ i ≤ n-2` (immediate
array neighbors, no wraparound) and then sets the two boundary entries. -/
def specInteriorStep (D dt dx left right : ℚ) (C : List ℚ) : List ℚ :=
  let r := D * dt / dx ^ 2
  let n := C.length
  (((List.range n).map fun i =>
      if 1 ≤ i ∧ i ≤ n - 2 then
        C.getD i 0 + r * (C.getD (i + 1) 0 - 2 * C.getD i 0 + C.getD (i - 1) 0)
      else C.getD i 0).set 0 left).set (n - 1) right

/-- A field symmetric about the domain midpoint: `C[i] = C[n-1-i]`. -/
def SymmField (C : List ℚ) : Prop :=
  ∀ i, i < C.length → C.getD i 0 = C.getD (C.length - 1 - i) 0

/-! ### Basic length and pointwise lemmas -/

theorem npRoll_length (C : List ℚ) (s : ℤ) : (npRoll C s).length = C.length := by
  simp [npRoll]

theorem stencilUpdate_length (D dt dx : ℚ) (C : List ℚ) :
    (stencilUpdate D dt dx C).length = C.length := by
  simp [stencilUpdate, npRoll_length]

theorem diffusionStep_length (D dt dx l r : ℚ) (C : List ℚ) :
    (diffusionStep D dt dx l r C).length = C.length := by
  simp [diffusionStep, stencilUpdate_length]

theorem diffusionLoop_length (D dt dx l r : ℚ) (nt : ℕ) (C : List ℚ) :
    (diffusionLoop D dt dx l r nt C).length = C.length := by
  induction nt generalizing C with
  | zero => rfl
  | succ n ih =>
      rw [diffusionLoop, ih, diffusionStep_length]

theorem getD_zipWith (f : ℚ → ℚ → ℚ) (l1 l2 : List ℚ) (i : ℕ)
    (h1 : i < l1.length) (h2 : i < l2.length) :
    (List.zipWith f l1 l2).getD i 0 = f (l1.getD i 0) (l2.getD i 0) := by
  rw [List.getD_eq_getElem, List.getElem_zipWith, List.getD_eq_getElem, List.getD_eq_getElem]
  simp [List.length_zipWith]; omega

theorem getD_map (f : ℚ → ℚ) (l : List ℚ) (i : ℕ) (h : i < l.length) :
    (l.map f).getD i 0 = f (l.getD i 0) := by
  rw [List.getD_eq_getElem, List.getElem_map, List.getD_eq_getElem]
  simpa using h

theorem getD_set (l : List ℚ) (i j : ℕ) (a : ℚ) (h : j < l.length) :
    (l.set i a).getD j 0 = if i = j then a else l.getD j 0 := by
  rw [List.getD_eq_getElem, List.getElem_set]
  split
  · rfl
  · rw [List.getD_eq_getElem]
  · simpa using h

theorem getD_range_map (f : ℕ → ℚ) (n i : ℕ) (h : i < n) :
    ((List.range n).map f).getD i 0 = f i := by
  rw [List.getD_eq_getElem, List.getElem_map, List.getElem_range]
  simpa using h

theorem npRoll_getD (C : List ℚ) (s : ℤ) (i : ℕ) (h : i < C.length) :
    (npRoll C s).getD i 0 =
      C.getD (((i : ℤ) - s) % (C.length : ℤ)).toNat 0 := by
  rw [npRoll, getD_range_map _ _ _ h]

theorem emod_toNat_succ (i n : ℕ) (h : i + 1 < n) :
    (((i : ℤ) + 1) % (n : ℤ)).toNat = i + 1 := by
  have h1 : ((i : ℤ) + 1) % (n : ℤ) = (i : ℤ) + 1 :=
    Int.emod_eq_of_lt (by positivity) (by exact_mod_cast h)
  rw [h1]; omega

theorem emod_toNat_pred (i n : ℕ) (h1 : 1 ≤ i) (h2 : i < n) :
    (((i : ℤ) - 1) % (n : ℤ)).toNat = i - 1 := by
  have h3 : ((i : ℤ) - 1) % (n : ℤ) = (i : ℤ) - 1 :=
    Int.emod_eq_of_lt (by omega) (by omega)
  rw [h3]; omega

/-- Pointwise form of the vectorized stencil statement: every entry gets the
three-point increment with *wraparound* neighbor indices, all read from the
pre-update field. -/
theorem stencilUpdate_getD (D dt dx : ℚ) (C : List ℚ) (i : ℕ) (h : i < C.length) :
    (stencilUpdate D dt dx C).getD i 0 =
      C.getD i 0 + D * dt / dx ^ 2 *
        (C.getD (((i : ℤ) + 1) % (C.length : ℤ)).toNat 0 - 2 * C.getD i 0 +
         C.getD (((i : ℤ) - 1) % (C.length : ℤ)).toNat 0) := by
  rw [stencilUpdate]
  rw [getD_zipWith _ _ _ _ h (by simpa [npRoll_length] using h)]
  rw [getD_map _ _ _ (by simpa [npRoll_length] using h)]
  rw [getD_zipWith _ _ _ _ (by simpa [npRoll_length] using h) (by simpa [npRoll_length] using h)]
  rw [getD_zipWith _ _ _ _ (by simpa [npRoll_length] using h) (by simpa using h)]
  rw [getD_map _ _ _ h]
  rw [npRoll_getD _ _ _ h, npRoll_getD _ _ _ h]
  norm_num [sub_neg_eq_add]

/-- Pointwise form of one full loop iteration (for fields with at least two
entries): index 0 reads `left`, the last index reads `right`, and every
interior index gets the FTCS increment from its immediate neighbors in the
pre-update field (the wraparound of the rolls only ever lands on the two
boundary entries, which the overwrites then replace). -/
theorem diffusionStep_getD (D dt dx l r : ℚ) (C : List ℚ) (hn : 2 ≤ C.length)
    (i : ℕ) (hi : i < C.length) :
    (diffusionStep D dt dx l r C).getD i 0 =
      if i = 0 then l
      else if i = C.length - 1 then r
      else C.getD i 0 + D * dt / dx ^ 2 *
        (C.getD (i + 1) 0 - 2 * C.getD i 0 + C.getD (i - 1) 0) := by
  rw [diffusionStep]
  rw [getD_set _ _ _ _ (by simp [stencilUpdate_length]; omega)]
  rw [getD_set _ _ _ _ (by simpa [stencilUpdate_length] using hi)]
  by_cases h0 : i = 0
  · subst h0
    rw [if_neg (by omega), if_pos rfl, if_pos rfl]
  · by_cases h1 : i = C.length - 1
    · rw [if_pos h1.symm, if_neg h0, if_pos h1]
    · rw [if_neg (fun hc => h1 hc.symm), if_neg (fun hc => h0 hc.symm),
          if_neg h0, if_neg h1]
      rw [stencilUpdate_getD _ _ _ _ _ hi,
          emod_toNat_succ i C.length (by omega),
          emod_toNat_pred i C.length (by omega) hi]

theorem diffusionLoop_eq_iterate (D dt dx l r : ℚ) (nt : ℕ) (C : List ℚ) :
    diffusionLoop D dt dx l r nt C = (diffusionStep D dt dx l r)^[nt] C := by
  induction nt generalizing C with
  | zero => rfl
  | succ n ih =>
      simp only [diffusionLoop]
      rw [ih, Function.iterate_succ_apply]

theorem diffusionLoop_succ (D dt dx l r : ℚ) (n : ℕ) (C : List ℚ) :
    diffusionLoop D dt dx l r (n + 1) C =
      diffusionStep D dt dx l r (diffusionLoop D dt dx l r n C) := by
  rw [diffusionLoop_eq_iterate, diffusionLoop_eq_iterate, Function.iterate_succ_apply']

theorem specInteriorStep_length (D dt dx l r : ℚ) (C : List ℚ) :
    (specInteriorStep D dt dx l r C).length = C.length := by
  simp [specInteriorStep]

/-- Pointwise form of the spec-modelled interior-only update. -/
theorem specInteriorStep_getD (D dt dx l r : ℚ) (C : List ℚ) (hn : 2 ≤ C.length)
    (i : ℕ) (hi : i < C.length) :
    (specInteriorStep D dt dx l r C).getD i 0 =
      if i = 0 then l
      else if i = C.length - 1 then r
      else C.getD i 0 + D * dt / dx ^ 2 *
        (C.getD (i + 1) 0 - 2 * C.getD i 0 + C.getD (i - 1) 0) := by
  simp only [specInteriorStep]
  rw [getD_set _ _ _ _ (by simp; omega)]
  rw [getD_set _ _ _ _ (by simpa using hi)]
  rw [getD_range_map _ _ _ hi]
  by_cases h0 : i = 0
  · subst h0
    rw [if_neg (by omega), if_pos rfl, if_pos rfl]
  · by_cases h1 : i = C.length - 1
    · rw [if_pos h1.symm, if_neg h0, if_pos h1]
    · rw [if_neg (fun hc => h1 hc.symm), if_neg (fun hc => h0 hc.symm),
          if_pos (⟨by omega, by omega⟩ : 1 ≤ i ∧ i ≤ C.length - 2),
          if_neg h0, if_neg h1]

/-- One step with equal boundary values preserves midpoint symmetry. -/
theorem diffusionStep_symm (D dt dx v : ℚ) (C : List ℚ) (hn : 2 ≤ C.length)
    (hs : SymmField C) : SymmField (diffusionStep D dt dx v v C) := by
  intro i hi
  rw [diffusionStep_length] at hi ⊢
  have hj : C.length - 1 - i < C.length := by omega
  rw [diffusionStep_getD D dt dx v v C hn i hi,
      diffusionStep_getD D dt dx v v C hn (C.length - 1 - i) hj]
  by_cases h0 : i = 0
  · subst h0
    rw [if_pos rfl, if_neg (by omega), if_pos (by omega)]
  · by_cases h1 : i = C.length - 1
    · rw [if_neg h0, if_pos h1, if_pos (by omega)]
    · rw [if_neg h0, if_neg h1, if_neg (by omega), if_neg (by omega)]
      have e1 := hs (C.length - 1 - i) hj
      have e2 := hs (C.length - 1 - i + 1) (by omega)
      have e3 := hs (C.length - 1 - i - 1) (by omega)
      rw [show C.length - 1 - (C.length - 1 - i) = i by omega] at e1
      rw [show C.length - 1 - (C.length - 1 - i + 1) = i - 1 by omega] at e2
      rw [show C.length - 1 - (C.length - 1 - i - 1) = i + 1 by omega] at e3
      rw [e1, e2, e3]
      ring

/-! ### Claim theorems -/

/-- C1: for every field of length at least 2 and positive `D`, `dt`, `dx`, one
step produces a field whose every interior index `i ∈ [1, n-2]` satisfies
`C'[i] = C[i] + (D*dt/dx^2) * (C[i+1] - 2*C[i] + C[i-1])` with all neighbor
values read from the pre-update field; in particular one step on
`[10, 20, 5, 0, 8]` with `D = 1`, `dx = 1`, `dt = 0.5`, `left_value = 10`,
`right_value = 8` yields exactly `[10, 7.5, 10, 6.5, 8]`. -/
theorem claim1_interior_stencil :
    (∀ (D dt dx l r : ℚ) (C : List ℚ), 0 < D → 0 < dt → 0 < dx → 2 ≤ C.length →
      ∀ i, 1 ≤ i → i ≤ C.length - 2 →
        (diffusionStep D dt dx l r C).getD i 0 =
          C.getD i 0 + D * dt / dx ^ 2 *
            (C.getD (i + 1) 0 - 2 * C.getD i 0 + C.getD (i - 1) 0)) ∧
    diffusionStep 1 0.5 1 10 8 [10, 20, 5, 0, 8] = [10, 7.5, 10, 6.5, 8] := by
  constructor
  · intro D dt dx l r C _ _ _ hn i h1 h2
    rw [diffusionStep_getD D dt dx l r C hn i (by omega),
        if_neg (by omega), if_neg (by omega)]
  · norm_num [diffusionStep, stencilUpdate, npRoll, List.range_succ]
    norm_num [show ((2:ℤ).toNat = 2) from rfl, show ((3:ℤ).toNat = 3) from rfl,
      show ((4:ℤ).toNat = 4) from rfl]

/-- Witness for C1: the interior formula instantiated at `i = 1` on the
concrete field from the spec's worked example. -/
theorem claim1_witness :
    (diffusionStep 1 0.5 1 10 8 [10, 20, 5, 0, 8]).getD 1 0 =
      List.getD [10, 20, 5, 0, 8] 1 0 + 1 * 0.5 / 1 ^ 2 *
        (List.getD [10, 20, 5, 0, 8] (1 + 1) 0 -
         2 * List.getD [10, 20, 5, 0, 8] 1 0 +
         List.getD [10, 20, 5, 0, 8] (1 - 1) 0) :=
  claim1_interior_stencil.1 1 0.5 1 10 8 [10, 20, 5, 0, 8]
    (by norm_num) (by norm_num) (by norm_num) (by norm_num) 1
    (by norm_num) (by norm_num)

/-- C2 counterexample: `D = -5` is an invalid (non-positive) diffusivity, yet
the run proceeds with no `InvalidParameter` failure and returns a field. -/
theorem claim2_counterexample :
    (-5 : ℚ) ≤ 0 ∧ diffusionRun (-5) 1 10 8 1 [1, 2, 3] = some [10, 2, 8] := by
  constructor
  · norm_num
  · rw [diffusionRun, if_neg (by norm_num), if_neg (by simp)]
    norm_num [diffusionLoop, timeStep, diffusionStep, stencilUpdate,
      npRoll, List.range_succ]
    norm_num [show ((2:ℤ).toNat = 2) from rfl]

/-- C2 amended: the notebook performs no `InvalidParameter` validation and
never fails before stepping.  Invalid inputs with `D ≠ 0`, `dx ≠ 0` and a
nonempty field — including every negative `D` or `dx` and every field of
length 1 — silently proceed and return a field.  The only failures are
runtime exceptions raised mid-computation, modelled by `none`: `D = 0`
(`ZeroDivisionError` while computing `dt`), and, once at least one
iteration runs, `dx = 0` (`ZeroDivisionError` in the loop body) or an
empty field (`IndexError` at the boundary assignment). -/
theorem claim2_no_validation :
    ∀ (D dx l r : ℚ) (nt : ℕ) (C : List ℚ),
      (D ≠ 0 → dx ≠ 0 → C ≠ [] → ∃ F, diffusionRun D dx l r nt C = some F) ∧
      (D = 0 → diffusionRun D dx l r nt C = none) ∧
      (D ≠ 0 → dx = 0 → nt ≠ 0 → diffusionRun D dx l r nt C = none) ∧
      (D ≠ 0 → C = [] → nt ≠ 0 → diffusionRun D dx l r nt C = none) := by
  intro D dx l r nt C
  refine ⟨?_, ?_, ?_, ?_⟩
  · intro hD hdx hC
    exact ⟨_, by rw [diffusionRun, if_neg hD, if_neg (by simp [hdx, hC])]⟩
  · intro h
    rw [diffusionRun, if_pos h]
  · intro hD hdx hnt
    rw [diffusionRun, if_neg hD, if_pos ⟨Or.inl hdx, hnt⟩]
  · intro hD hC hnt
    rw [diffusionRun, if_neg hD, if_pos ⟨Or.inr hC, hnt⟩]

/-- Witness for C2 (amended): a run with negative diffusivity, negative
spacing and a length-1 field still returns a field. -/
theorem claim2_witness : ∃ F, diffusionRun (-5) (-1) 0 0 2 [7] = some F :=
  (claim2_no_validation (-5) (-1) 0 0 2 [7]).1 (by norm_num) (by norm_num) (by simp)

/-- C3 counterexample: with the valid input `D = 1 > 0`, `dx = 1 > 0`, field
`[1, 2, 3]` of length 3 and `nt = 0`, the loop returns a field whose first
entry is `1`, not the left boundary value `10`: the boundary overwrite lives
inside the loop body, so zero iterations enforce nothing. -/
theorem claim3_counterexample :
    (0 : ℚ) < 1 ∧ 2 ≤ ([1, 2, 3] : List ℚ).length ∧
      (diffusionLoop 1 0.5 1 10 8 0 [1, 2, 3]).getD 0 0 ≠ 10 := by
  refine ⟨by norm_num, by norm_num, ?_⟩
  show List.getD [1, 2, 3] 0 0 ≠ 10
  norm_num

/-- C3 amended: for every field of length at least 2 and every `nt ≥ 1`, the
field returned by the loop carries `left_value` at index 0 and `right_value`
at the last index exactly; for `nt = 0` the loop returns the input unchanged,
so the boundary invariant only holds from the first completed step on. -/
theorem claim3_boundary_invariant :
    ∀ (D dt dx l r : ℚ) (nt : ℕ) (C : List ℚ), 0 < D → 0 < dx →
      2 ≤ C.length → 1 ≤ nt →
      (diffusionLoop D dt dx l r nt C).getD 0 0 = l ∧
      (diffusionLoop D dt dx l r nt C).getD
        ((diffusionLoop D dt dx l r nt C).length - 1) 0 = r := by
  intro D dt dx l r nt C _ _ hn hnt
  obtain ⟨m, rfl⟩ : ∃ m, nt = m + 1 := ⟨nt - 1, by omega⟩
  rw [diffusionLoop_succ]
  have hX : (diffusionLoop D dt dx l r m C).length = C.length :=
    diffusionLoop_length D dt dx l r m C
  constructor
  · rw [diffusionStep_getD D dt dx l r _ (by omega) 0 (by omega), if_pos rfl]
  · rw [diffusionStep_length, hX,
        diffusionStep_getD D dt dx l r _ (by omega) (C.length - 1) (by omega),
        if_neg (by omega), if_pos (by rw [hX])]

/-- Witness for C3 (amended): one step on `[1, 2, 3]` with boundaries 10 / 8
ends with 10 first and 8 last. -/
theorem claim3_witness :
    (diffusionLoop 1 0.5 1 10 8 1 [1, 2, 3]).getD 0 0 = 10 ∧
    (diffusionLoop 1 0.5 1 10 8 1 [1, 2, 3]).getD
      ((diffusionLoop 1 0.5 1 10 8 1 [1, 2, 3]).length - 1) 0 = 8 :=
  claim3_boundary_invariant 1 0.5 1 10 8 1 [1, 2, 3]
    (by norm_num) (by norm_num) (by norm_num) (by norm_num)

/-- C4 counterexample: with `nt = 0` the loop returns `[4, 5, 6]` itself; the
last entry stays `6` instead of being overwritten with the right boundary
value `8`, so the claimed boundary overwrite does not happen. -/
theorem claim4_counterexample :
    2 ≤ ([4, 5, 6] : List ℚ).length ∧
      (diffusionLoop 1 0.5 1 10 8 0 [4, 5, 6]).getD 2 0 ≠ 8 := by
  refine ⟨by norm_num, ?_⟩
  show List.getD [4, 5, 6] 2 0 ≠ 8
  norm_num

/-- C4 amended: running the loop with `nt = 0` returns the initial field
completely unchanged — interior values untouched and, contrary to the claim,
the two boundary entries are *not* overwritten either, because the boundary
assignments sit inside the loop body. -/
theorem claim4_zero_step_identity :
    ∀ (D dt dx l r : ℚ) (C : List ℚ), diffusionLoop D dt dx l r 0 C = C :=
  fun _ _ _ _ _ _ => rfl

/-- C5: for positive `dx` and `D` the time-step selection returns exactly
`0.5 * dx^2 / D`. -/
theorem claim5_time_step :
    ∀ dx D : ℚ, 0 < dx → 0 < D → timeStep dx D = 0.5 * dx ^ 2 / D := by
  intro dx D _ _
  rw [timeStep, mul_div_assoc]

/-- Witness for C5 at `dx = 2`, `D = 4`. -/
theorem claim5_witness : timeStep 2 4 = 0.5 * 2 ^ 2 / 4 :=
  claim5_time_step 2 4 (by norm_num) (by norm_num)

/-- C6: for every field of length at least 2 (including lengths 2 and 3), the
implemented wraparound update — whole-array roll stencil followed by the two
boundary overwrites — coincides exactly with the spec's interior-only update:
the wrapped contributions only ever land on the two boundary entries, which
the overwrites then discard. -/
theorem claim6_roll_equiv_interior :
    ∀ (D dt dx l r : ℚ) (C : List ℚ), 2 ≤ C.length →
      diffusionStep D dt dx l r C = specInteriorStep D dt dx l r C := by
  intro D dt dx l r C hn
  apply List.ext_getElem
  · rw [diffusionStep_length, specInteriorStep_length]
  · intro i h1 h2
    have hi : i < C.length := by rwa [diffusionStep_length] at h1
    rw [← List.getD_eq_getElem _ 0 h1, ← List.getD_eq_getElem _ 0 h2,
        diffusionStep_getD D dt dx l r C hn i hi,
        specInteriorStep_getD D dt dx l r C hn i hi]

/-- Witness for C6 on the length-2 field `[1, 5]`. -/
theorem claim6_witness :
    diffusionStep 3 0.25 2 7 9 [1, 5] = specInteriorStep 3 0.25 2 7 9 [1, 5] :=
  claim6_roll_equiv_interior 3 0.25 2 7 9 [1, 5] (by norm_num)

/-- C7: a field symmetric about the domain midpoint, stepped with equal
boundary values, stays symmetric after any number of steps (exactly, in the
rational model). -/
theorem claim7_symmetry :
    ∀ (D dt dx v : ℚ) (nt : ℕ) (C : List ℚ), 2 ≤ C.length → SymmField C →
      SymmField (diffusionLoop D dt dx v v nt C) := by
  intro D dt dx v nt
  induction nt with
  | zero => intro C _ hs; exact hs
  | succ n ih =>
      intro C hn hs
      simp only [diffusionLoop]
      exact ih _ (by rw [diffusionStep_length]; exact hn)
        (diffusionStep_symm D dt dx v C hn hs)

/-- Witness for C7: three steps on the symmetric field `[1, 2, 1]` with equal
boundary values 5 leave it symmetric. -/
theorem claim7_witness : SymmField (diffusionLoop 1 0.5 1 5 5 3 [1, 2, 1]) :=
  claim7_symmetry 1 0.5 1 5 3 [1, 2, 1] (by norm_num)
    (by intro i hi; simp at hi; interval_cases i <;> rfl)

/-- C8: the driving loop is exactly `nt` sequential applications of the
one-step update, each consuming the previous step's output, and (being a
total function of `nt`) terminates after exactly those `nt` iterations. -/
theorem claim8_loop_iterate :
    ∀ (D dt dx l r : ℚ) (nt : ℕ) (C : List ℚ),
      diffusionLoop D dt dx l r nt C = (diffusionStep D dt dx l r)^[nt] C :=
  fun D dt dx l r nt C => diffusionLoop_eq_iterate D dt dx l r nt C

/-- C9: the step and the loop are deterministic pure functions of their
inputs — equal inputs give equal outputs, and no state other than the
returned field is involved. -/
theorem claim9_determinism :
    ∀ (D dt dx l r : ℚ) (nt : ℕ) (Ca Cb : List ℚ), Ca = Cb →
      diffusionStep D dt dx l r Ca = diffusionStep D dt dx l r Cb ∧
      diffusionLoop D dt dx l r nt Ca = diffusionLoop D dt dx l r nt Cb := by
  intro D dt dx l r nt Ca Cb h
  subst h
  exact ⟨rfl, rfl⟩

/-- Witness for C9 at a concrete input. -/
theorem claim9_witness :
    diffusionStep 1 1 1 0 0 [1, 2, 3] = diffusionStep 1 1 1 0 0 [1, 2, 3] ∧
    diffusionLoop 1 1 1 0 0 4 [1, 2, 3] = diffusionLoop 1 1 1 0 0 4 [1, 2, 3] :=
  claim9_determinism 1 1 1 0 0 4 [1, 2, 3] [1, 2, 3] rfl

/-- C10: one step — and hence any number of steps — preserves the length of
the field. -/
theorem claim10_length_preserved :
    ∀ (D dt dx l r : ℚ) (nt : ℕ) (C : List ℚ),
      (diffusionStep D dt dx l r C).length = C.length ∧
      (diffusionLoop D dt dx l r nt C).length = C.length :=
  fun D dt dx l r nt C =>
    ⟨diffusionStep_length D dt dx l r C, diffusionLoop_length D dt dx l r nt C⟩

end Diffusion
